import Mathlib

set_option linter.unnecessarySeqFocus false
set_option linter.unreachableTactic false
set_option linter.unusedTactic false

/-!
Verification of the size-token parsing, sorting and formatting logic of
`docs/js/redirect.js` in the TurboSpeed Files repository.

The JavaScript is shallowly embedded:

* numbers are modelled as exact rationals (`ℚ`), idealising IEEE doubles;
* JavaScript string built-ins (`trim`, `startsWith`, `split("\n")`,
  `replace`, `toLowerCase`, `toFixed`, decimal rendering of numbers) are
  modelled as transparent functions on `List Char`;
* `Array.prototype.sort` with the comparator
  `(a, b) => parseSize(a) - parseSize(b)` is stable (ECMAScript 2019), so it
  is modelled by the stable `List.insertionSort`;
* the single `fetch` of `loadAvailableFiles` is modelled as an `Except`
  outcome delivered to the `try`/`catch` block.
-/

namespace TurboSpeed

/-! ### Character-list models of the JavaScript string built-ins -/

/-- `pat` is a prefix of `cs`: the model of JavaScript `String.startsWith`. -/
def beginsWith : List Char → List Char → Bool
  | [], _ => true
  | _ :: _, [] => false
  | p :: ps, c :: cs => p == c && beginsWith ps cs

/-- The model of JavaScript `String.trim`: drop whitespace from both ends. -/
def trimChars (cs : List Char) : List Char :=
  ((cs.dropWhile Char.isWhitespace).reverse.dropWhile Char.isWhitespace).reverse

/-- The model of JavaScript `split("\n")`: cut at every newline, an empty
string yielding the single empty line. -/
def splitLines : List Char → List (List Char)
  | [] => [[]]
  | c :: cs =>
    if c = '\n' then [] :: splitLines cs
    else
      match splitLines cs with
      | l :: ls => (c :: l) :: ls
      | [] => [[c]]

/-! ### `parseSize` -/

/-- Value of a non-empty decimal digit string, as `parseFloat` reads the
digits before or after the decimal point. -/
def digitsToNat (cs : List Char) : Nat :=
  cs.foldl (fun n c => 10 * n + (c.toNat - 48)) 0

/-- `\d+`: a non-empty string of decimal digits. -/
def isIntTok (cs : List Char) : Bool :=
  !cs.isEmpty && cs.all Char.isDigit

/-- Split a character list at its first `'.'`, if any. -/
def splitAtDot : List Char → Option (List Char × List Char)
  | [] => none
  | c :: cs =>
    if c = '.' then some ([], cs)
    else
      match splitAtDot cs with
      | some (a, b) => some (c :: a, b)
      | none => none

/-- The numeric group `^(\d+(?:\.\d+)?)` of the `parseSize` regex, read by
`parseFloat` as an exact rational (idealising floating-point rounding away). -/
def numLit? (cs : List Char) : Option ℚ :=
  match splitAtDot cs with
  | none => if isIntTok cs then some (digitsToNat cs) else none
  | some (a, b) =>
    if isIntTok a && isIntTok b then
      some ((digitsToNat a : ℚ) + (digitsToNat b : ℚ) / 10 ^ b.length)
    else none

/-- The byte multiplier of the `switch (unit)` in `parseSize`. -/
def unitFactor (u : List Char) : Option ℚ :=
  if u = ['k', 'b'] then some (1024 : ℚ)
  else if u = ['m', 'b'] then some (1024 ^ 2 : ℚ)
  else if u = ['g', 'b'] then some (1024 ^ 3 : ℚ)
  else none

/-- `sizeStr.match(/^(\d+(?:\.\d+)?)(kb|mb|gb)$/)`: since the numeric group
contains no letters, a full match decomposes the string as the numeric
literal followed by the two-character unit; returns the numeric value and the
unit's byte multiplier. -/
def matchToken? (s : String) : Option (ℚ × ℚ) :=
  let cs := s.data
  match unitFactor (cs.drop (cs.length - 2)), numLit? (cs.take (cs.length - 2)) with
  | some f, some v => some (v, f)
  | _, _ => none

/-- `parseSize` of `redirect.js`: the byte count of a size token, `0` for any
string the regex does not match. -/
def parseSize (s : String) : ℚ :=
  match matchToken? s with
  | some (v, f) => v * f
  | none => 0

/-! ### `formatSize` -/

/-- Decimal digit characters of a natural number (fuel-based structural
recursion), the model of JavaScript's decimal rendering of an integer. -/
def natReprCore : Nat → Nat → List Char
  | 0, _ => []
  | fuel + 1, n =>
    if n < 10 then [Nat.digitChar n]
    else natReprCore fuel (n / 10) ++ [Nat.digitChar (n % 10)]

/-- Decimal digits of `n`. -/
def natRepr (n : Nat) : List Char :=
  natReprCore (n + 1) n

/-- Floor of a non-negative rational, as a natural number. -/
def ratFloorNat (q : ℚ) : Nat :=
  q.num.toNat / q.den

/-- `x.toFixed(0)` for non-negative `x`: the nearest integer, ties rounding
up (ECMAScript picks the larger candidate). -/
def toFixed0 (q : ℚ) : List Char :=
  natRepr (ratFloorNat (q + 1 / 2))

/-- `x.toFixed(1)` for non-negative `x`: one decimal digit, ties rounding up. -/
def toFixed1 (q : ℚ) : List Char :=
  let n := ratFloorNat (q * 10 + 1 / 2)
  natRepr (n / 10) ++ '.' :: natRepr (n % 10)

/-- `str.replace(".0", "")`: remove the first occurrence of the substring
`".0"`, if any. -/
def dropDot0 : List Char → List Char
  | [] => []
  | c :: rest =>
    if c = '.' ∧ rest.head? = some '0' then rest.tail
    else c :: dropDot0 rest

/-- `formatSize` of `redirect.js`. -/
def formatSize (s : String) : String :=
  let sizeBytes := parseSize s
  if sizeBytes ≥ 1024 ^ 3 then
    (⟨dropDot0 (toFixed1 (sizeBytes / 1024 ^ 3))⟩ : String) ++ " GB"
  else if sizeBytes ≥ 1024 ^ 2 then
    (⟨toFixed0 (sizeBytes / 1024 ^ 2)⟩ : String) ++ " MB"
  else
    (⟨toFixed0 (sizeBytes / 1024)⟩ : String) ++ " KB"

/-! ### `parseYamlFiles` -/

/-- A quote character, double or single (`Char.ofNat 39`). -/
def isQuote (c : Char) : Bool :=
  c = '"' || c.toNat = 39

/-- Strip one leading quote character, as the anchored first alternative of
the regex `/^- ["']?|["']?$/g` does after the `"- "` marker itself. -/
def stripLeadQuote : List Char → List Char
  | c :: cs => if isQuote c then cs else c :: cs
  | [] => []

/-- `trimmed.replace(/^- ["']?|["']?$/g, "").toLowerCase()` for a trimmed
line that starts with `"- "`: strip the marker plus at most one leading
quote, strip at most one trailing quote, lower-case the rest. -/
def extractEntry (t : List Char) : List Char :=
  ((stripLeadQuote ((stripLeadQuote (t.drop 2)).reverse)).reverse).map Char.toLower

/-- The `for (const line of lines)` loop of `parseYamlFiles`; `inSec` is the
`inFilesSection` flag, and the `break` is modelled by returning the entries
collected so far. -/
def collectEntries : List (List Char) → Bool → List (List Char)
  | [], _ => []
  | l :: ls, inSec =>
    let t := trimChars l
    if t = "files:".data then collectEntries ls true
    else if inSec && beginsWith "- ".data t then extractEntry t :: collectEntries ls true
    else if inSec && !beginsWith "-".data t && !t.isEmpty then []
    else collectEntries ls inSec

/-- The raw entry list pushed onto `availableFiles` by the loop, as strings. -/
def rawEntries (doc : String) : List String :=
  (collectEntries (splitLines doc.data) false).map (fun cs => (⟨cs⟩ : String))

/-- The comparator order of `availableFiles.sort((a, b) => parseSize(a) - parseSize(b))`. -/
def sizeLE (a b : String) : Prop :=
  parseSize a ≤ parseSize b

instance : DecidableRel sizeLE := fun a b =>
  inferInstanceAs (Decidable (parseSize a ≤ parseSize b))

/-- `parseYamlFiles`: collect the entries of the `files:` section, then sort
them ascending by byte size with a stable sort. -/
def parseYamlFiles (doc : String) : List String :=
  List.insertionSort sizeLE (rawEntries doc)

/-! ### `loadAvailableFiles` and the view states -/

/-- The observable outcome of `loadAvailableFiles` followed by
`displayFiles` / `showError`. -/
inductive ViewState where
  | errored
  | emptyCatalog
  | populated (files : List String)
deriving DecidableEq

/-- `loadAvailableFiles`: the fetch (and text read) outcome is modelled as an
`Except` value; a rejection lands in the `catch` block, which shows the error
state; on success the text is parsed and `displayFiles` shows the empty state
exactly when the catalog is empty. -/
def load (fetched : Except Unit String) : ViewState :=
  match fetched with
  | Except.error _ => ViewState.errored
  | Except.ok text =>
    let files := parseYamlFiles text
    if files.isEmpty then ViewState.emptyCatalog else ViewState.populated files

/-! ### Spec-side definitions (from the specification's words, for the
refinement-style claims) -/

/-- Spec-side (amended claim C3): a line ending the `files:` section — its
trimmed content is non-blank, is not the marker itself, and does not start
with a hyphen at all. -/
def isTermLine (l : List Char) : Bool :=
  let t := trimChars l
  !t.isEmpty && !(t = "files:".data : Bool) && !beginsWith "-".data t

/-- Spec-side (claim C3 as stated): a line ending the section — trimmed
content non-blank and not starting with the list-item marker `"- "`. -/
def isTermLineClaimed (l : List Char) : Bool :=
  let t := trimChars l
  !t.isEmpty && !beginsWith "- ".data t

/-- The lines after the first line whose trimmed content is `files:`. -/
def afterMarker : List (List Char) → Option (List (List Char))
  | [] => none
  | l :: ls => if trimChars l = "files:".data then some ls else afterMarker ls

/-- The entry a single in-section line contributes, if any. -/
def entryOfLine (l : List Char) : Option (List Char) :=
  if beginsWith "- ".data (trimChars l) then some (extractEntry (trimChars l)) else none

/-- Spec-side description (amended claim C3): the entries come exactly from
the lines strictly between the first `files:` marker and the first
terminating line. -/
def sectionEntries (doc : String) : List String :=
  match afterMarker (splitLines doc.data) with
  | none => []
  | some rest =>
    ((rest.takeWhile (fun l => !isTermLine l)).filterMap entryOfLine).map
      (fun cs => (⟨cs⟩ : String))

/-- Claim C3 as stated: the same, with the claimed terminating condition. -/
def sectionEntriesClaimed (doc : String) : List String :=
  match afterMarker (splitLines doc.data) with
  | none => []
  | some rest =>
    ((rest.takeWhile (fun l => !isTermLineClaimed l)).filterMap entryOfLine).map
      (fun cs => (⟨cs⟩ : String))

/-- Spec-side entry extraction (claim C7): strip the `"- "` marker, then at
most one leading and at most one trailing quote character, then lower-case. -/
def specEntry (t : List Char) : List Char :=
  let v := t.drop 2
  let v := match v with
    | c :: rest => if isQuote c then rest else c :: rest
    | [] => []
  let v := if isQuote (v.getLastD 'x') then v.dropLast else v
  v.map Char.toLower

/-- Spec-side formatter (claim C6): thresholds at `1024 ^ 3` and `1024 ^ 2`
bytes; GiB rendered to one decimal place with a trailing `".0"` suppressed;
MiB and KiB rounded to the nearest whole number. -/
def specFormat (s : String) : String :=
  let b := parseSize s
  if b ≥ 1024 ^ 3 then
    let n := ratFloorNat (b / 1024 ^ 3 * 10 + 1 / 2)
    if n % 10 = 0 then (⟨natRepr (n / 10)⟩ : String) ++ " GB"
    else (⟨natRepr (n / 10)⟩ : String) ++ "." ++ (⟨natRepr (n % 10)⟩ : String) ++ " GB"
  else if b ≥ 1024 ^ 2 then
    (⟨natRepr (ratFloorNat (b / 1024 ^ 2 + 1 / 2))⟩ : String) ++ " MB"
  else
    (⟨natRepr (ratFloorNat (b / 1024 + 1 / 2))⟩ : String) ++ " KB"

/-! ### Helper lemmas: rounding and decimal rendering -/

theorem ratFloorNat_eq (q : ℚ) (n : ℕ) (h0 : (n : ℚ) ≤ q) (h1 : q < (n : ℚ) + 1) :
    ratFloorNat q = n := by
  have hq : 0 ≤ q := le_trans (by positivity) h0
  have hnum : 0 ≤ q.num := Rat.num_nonneg.mpr hq
  have h1' : q < ((n + 1 : ℕ) : ℚ) := by push_cast; exact h1
  have ha : (n : ℤ) * q.den ≤ q.num := by
    have h := Rat.le_def.mp h0
    rw [Rat.num_natCast, Rat.den_natCast, Nat.cast_one, mul_one] at h
    exact h
  have hb : q.num < ((n + 1 : ℕ) : ℤ) * q.den := by
    have h := Rat.lt_def.mp h1'
    rw [Rat.num_natCast, Rat.den_natCast, Nat.cast_one, mul_one] at h
    exact h
  unfold ratFloorNat
  apply Nat.div_eq_of_lt_le
  · zify
    rwa [Int.toNat_of_nonneg hnum]
  · zify
    rw [Int.toNat_of_nonneg hnum]
    exact_mod_cast hb

theorem digitChar_isDigit (m : ℕ) (h : m < 10) : (Nat.digitChar m).isDigit = true := by
  interval_cases m <;> decide

theorem digitChar_ne_zero (m : ℕ) (h0 : 0 < m) (h : m < 10) : Nat.digitChar m ≠ '0' := by
  interval_cases m <;> decide

theorem natReprCore_digits (fuel n : ℕ) : ∀ c ∈ natReprCore fuel n, c.isDigit = true := by
  induction fuel generalizing n with
  | zero => intro c hc; simp [natReprCore] at hc
  | succ fuel ih =>
    intro c hc
    rw [natReprCore] at hc
    by_cases h : n < 10
    · rw [if_pos h] at hc
      simp only [List.mem_singleton] at hc
      subst hc
      exact digitChar_isDigit n h
    · rw [if_neg h] at hc
      rcases List.mem_append.mp hc with h' | h'
      · exact ih (n / 10) c h'
      · simp only [List.mem_singleton] at h'
        subst h'
        exact digitChar_isDigit (n % 10) (Nat.mod_lt n (by norm_num))

theorem natRepr_no_dot (n : ℕ) : ∀ c ∈ natRepr n, c ≠ '.' := by
  intro c hc
  have h := natReprCore_digits (n + 1) n c hc
  intro hdot
  subst hdot
  simp at h

theorem natRepr_single (m : ℕ) (h : m < 10) : natRepr m = [Nat.digitChar m] := by
  rw [natRepr, natReprCore, if_pos h]

theorem dropDot0_no_dot (xs : List Char) (h : ∀ c ∈ xs, c ≠ '.') :
    dropDot0 xs = xs := by
  induction xs with
  | nil => rfl
  | cons c cs ih =>
    have hc : c ≠ '.' := h c (List.mem_cons_self c cs)
    rw [dropDot0, if_neg (fun hh => hc hh.1),
      ih (fun d hd => h d (List.mem_cons_of_mem c hd))]

theorem dropDot0_dot_zero (xs rest : List Char) (h : ∀ c ∈ xs, c ≠ '.') :
    dropDot0 (xs ++ '.' :: '0' :: rest) = xs ++ rest := by
  induction xs with
  | nil =>
    rw [List.nil_append, dropDot0, if_pos ⟨rfl, rfl⟩]
    rfl
  | cons c cs ih =>
    have hc : c ≠ '.' := h c (List.mem_cons_self c cs)
    rw [List.cons_append, dropDot0, if_neg (fun hh => hc hh.1),
      ih (fun d hd => h d (List.mem_cons_of_mem c hd)), List.cons_append]

theorem dropDot0_dot_keep (xs : List Char) (d : Char) (h : ∀ c ∈ xs, c ≠ '.')
    (hd : d ≠ '0') : dropDot0 (xs ++ '.' :: [d]) = xs ++ '.' :: [d] := by
  induction xs with
  | nil =>
    rw [List.nil_append, dropDot0,
      if_neg (fun hh => hd (by simpa using hh.2)), dropDot0,
      if_neg (fun hh => by simpa using hh.2)]
    rfl
  | cons c cs ih =>
    have hc : c ≠ '.' := h c (List.mem_cons_self c cs)
    rw [List.cons_append, dropDot0, if_neg (fun hh => hc hh.1),
      ih (fun e he => h e (List.mem_cons_of_mem c he))]

/-! ### Helper lemmas: the token regex -/

theorem splitAtDot_of_no_dot (l : List Char) (h : ∀ c ∈ l, c ≠ '.') :
    splitAtDot l = none := by
  induction l with
  | nil => rfl
  | cons c cs ih =>
    rw [splitAtDot, if_neg (h c (List.mem_cons_self c cs))]
    rw [ih (fun d hd => h d (List.mem_cons_of_mem c hd))]

theorem splitAtDot_app (a b : List Char) (h : ∀ c ∈ a, c ≠ '.') :
    splitAtDot (a ++ '.' :: b) = some (a, b) := by
  induction a with
  | nil => simp [splitAtDot]
  | cons c cs ih =>
    rw [List.cons_append, splitAtDot, if_neg (h c (List.mem_cons_self c cs))]
    rw [ih (fun d hd => h d (List.mem_cons_of_mem c hd))]

theorem digits_no_dot (l : List Char) (h : l.all Char.isDigit = true) :
    ∀ c ∈ l, c ≠ '.' := by
  intro c hc hdot
  have := List.all_eq_true.mp h c hc
  subst hdot
  simp at this

/-- `parseSize` on a well-formed token `<digits>[.<digits>]<unit>`. -/
theorem parseSize_token (a b u : List Char) (f : ℚ)
    (ha : isIntTok a = true) (hb : b.all Char.isDigit = true)
    (hu : unitFactor u = some f) (hlen : u.length = 2) :
    parseSize ⟨a ++ (if b.isEmpty then [] else '.' :: b) ++ u⟩ =
      ((digitsToNat a : ℚ) + (digitsToNat b : ℚ) / 10 ^ b.length) * f := by
  have ha' : a.all Char.isDigit = true := by
    have h := ha
    rw [isIntTok, Bool.and_eq_true] at h
    exact h.2
  have hadots : ∀ c ∈ a, c ≠ '.' := digits_no_dot a ha'
  set num : List Char := a ++ (if b.isEmpty then [] else '.' :: b) with hnum
  have htake : (num ++ u).take ((num ++ u).length - 2) = num := by
    rw [List.length_append, hlen, Nat.add_sub_cancel, List.take_left]
  have hdrop : (num ++ u).drop ((num ++ u).length - 2) = u := by
    rw [List.length_append, hlen, Nat.add_sub_cancel, List.drop_left]
  rw [parseSize, matchToken?]
  simp only [List.append_assoc] at htake hdrop ⊢
  rw [htake, hdrop, hu]
  cases hbe : b.isEmpty with
  | true =>
    have hb0 : b = [] := List.isEmpty_iff.mp hbe
    subst hb0
    rw [hnum]
    simp only [List.isEmpty_nil, if_true, List.append_nil]
    rw [numLit?, splitAtDot_of_no_dot a hadots]
    simp [ha, digitsToNat]
  | false =>
    rw [hnum]
    simp only [hbe, Bool.false_eq_true, if_false]
    rw [numLit?, splitAtDot_app a b hadots]
    have hbtok : isIntTok b = true := by
      rw [isIntTok, hbe]
      simpa using hb
    simp [ha, hbtok]

/-! ### Helper lemmas: strings and `formatSize` branches -/

theorem strMk_append (xs ys : List Char) :
    (⟨xs ++ ys⟩ : String) = (⟨xs⟩ : String) ++ (⟨ys⟩ : String) := rfl

theorem formatSize_gb (s : String) (b : ℚ) (n : ℕ) (hs : parseSize s = b)
    (hgb : 1024 ^ 3 ≤ b) (h0 : (n : ℚ) ≤ b / 1024 ^ 3 * 10 + 1 / 2)
    (h1 : b / 1024 ^ 3 * 10 + 1 / 2 < (n : ℚ) + 1) :
    formatSize s =
      (⟨dropDot0 (natRepr (n / 10) ++ '.' :: natRepr (n % 10))⟩ : String) ++ " GB" := by
  simp only [formatSize, toFixed1, hs]
  rw [if_pos hgb, ratFloorNat_eq _ n h0 h1]

theorem formatSize_mb (s : String) (b : ℚ) (n : ℕ) (hs : parseSize s = b)
    (hgb : ¬ 1024 ^ 3 ≤ b) (hmb : 1024 ^ 2 ≤ b)
    (h0 : (n : ℚ) ≤ b / 1024 ^ 2 + 1 / 2) (h1 : b / 1024 ^ 2 + 1 / 2 < (n : ℚ) + 1) :
    formatSize s = (⟨natRepr n⟩ : String) ++ " MB" := by
  simp only [formatSize, toFixed0, hs]
  rw [if_neg hgb, if_pos hmb, ratFloorNat_eq _ n h0 h1]

theorem formatSize_kb (s : String) (b : ℚ) (n : ℕ) (hs : parseSize s = b)
    (hgb : ¬ 1024 ^ 3 ≤ b) (hmb : ¬ 1024 ^ 2 ≤ b)
    (h0 : (n : ℚ) ≤ b / 1024 + 1 / 2) (h1 : b / 1024 + 1 / 2 < (n : ℚ) + 1) :
    formatSize s = (⟨natRepr n⟩ : String) ++ " KB" := by
  simp only [formatSize, toFixed0, hs]
  rw [if_neg hgb, if_neg hmb, ratFloorNat_eq _ n h0 h1]

/-! ### Helper lemmas: entry extraction -/

theorem stripLeadQuote_reverse (w : List Char) :
    (stripLeadQuote w.reverse).reverse =
      if isQuote (w.getLastD 'x') then w.dropLast else w := by
  induction w using List.reverseRecOn with
  | nil => simp [stripLeadQuote, isQuote]
  | append_singleton ys y ih =>
    rw [List.reverse_append]
    simp only [List.reverse_singleton, List.singleton_append, stripLeadQuote]
    rw [List.getLastD_concat, List.dropLast_concat]
    by_cases hq : isQuote y = true
    · rw [if_pos hq, if_pos hq, List.reverse_reverse]
    · rw [if_neg hq, if_neg hq]
      rw [List.reverse_cons, List.reverse_reverse]

theorem extractEntry_eq_specEntry (t : List Char) : extractEntry t = specEntry t := by
  rw [extractEntry, specEntry]
  rw [stripLeadQuote_reverse]
  rfl

/-! ### Helper lemmas: the line loop -/

theorem beginsWith_head (p : Char) (ps cs : List Char)
    (h : beginsWith (p :: ps) cs = true) : beginsWith [p] cs = true := by
  cases cs with
  | nil => simp [beginsWith] at h
  | cons c cs' =>
    rw [beginsWith, Bool.and_eq_true] at h
    rw [beginsWith, h.1]
    rfl

theorem collectEntries_true (ls : List (List Char)) :
    collectEntries ls true =
      (ls.takeWhile (fun l => !isTermLine l)).filterMap entryOfLine := by
  induction ls with
  | nil => rfl
  | cons l ls ih =>
    by_cases hf : trimChars l = "files:".data
    · have hterm : isTermLine l = false := by
        rw [isTermLine, hf]
        rfl
      have hentry : entryOfLine l = none := by
        rw [entryOfLine, hf]
        rfl
      rw [collectEntries, if_pos hf]
      rw [List.takeWhile_cons, hterm]
      simp only [Bool.not_false, if_true, List.filterMap_cons, hentry, ih]
    · by_cases he : beginsWith "- ".data (trimChars l) = true
      · have hdash : beginsWith "-".data (trimChars l) = true := beginsWith_head '-' [' '] _ he
        have hterm : isTermLine l = false := by
          rw [isTermLine, hdash]
          simp
        have hentry : entryOfLine l = some (extractEntry (trimChars l)) := by
          rw [entryOfLine, if_pos he]
        rw [collectEntries, if_neg hf, if_pos (by rw [he]; rfl)]
        rw [List.takeWhile_cons, hterm]
        simp only [Bool.not_false, if_true, List.filterMap_cons, hentry, ih]
      · by_cases hd : beginsWith "-".data (trimChars l) = true
        · -- skipped: starts with "-" but not "- "
          have hterm : isTermLine l = false := by
            rw [isTermLine, hd]
            simp
          have hentry : entryOfLine l = none := by
            rw [entryOfLine, if_neg he]
          rw [collectEntries, if_neg hf, if_neg (by simp [he]),
            if_neg (by simp [hd]), ih]
          rw [List.takeWhile_cons, hterm]
          simp only [Bool.not_false, if_true, List.filterMap_cons, hentry]
        · by_cases hne : (trimChars l).isEmpty = true
          · -- skipped: blank line
            have hterm : isTermLine l = false := by
              rw [isTermLine, hne]
              rfl
            have hentry : entryOfLine l = none := by
              rw [entryOfLine, if_neg he]
            rw [collectEntries, if_neg hf, if_neg (by simp [he]),
              if_neg (by simp [hne]), ih]
            rw [List.takeWhile_cons, hterm]
            simp only [Bool.not_false, if_true, List.filterMap_cons, hentry]
          · -- terminator: non-blank, not the marker, no leading hyphen
            have hterm : isTermLine l = true := by
              rw [isTermLine]
              simp only [Bool.and_eq_true, Bool.not_eq_true']
              refine ⟨⟨?_, ?_⟩, ?_⟩
              · simpa using hne
              · exact decide_eq_false hf
              · simpa using hd
            rw [collectEntries, if_neg hf, if_neg (by simp [he]),
              if_pos (by simp [hd, hne])]
            rw [List.takeWhile_cons, hterm]
            rfl

theorem collectEntries_false (ls : List (List Char)) :
    collectEntries ls false =
      match afterMarker ls with
      | none => []
      | some rest => collectEntries rest true := by
  induction ls with
  | nil => rfl
  | cons l ls ih =>
    by_cases hf : trimChars l = "files:".data
    · rw [collectEntries, if_pos hf, afterMarker, if_pos hf]
    · rw [collectEntries, if_neg hf, afterMarker, if_neg hf]
      simp only [Bool.false_and, Bool.false_eq_true, if_false, ih]

/-! ### Helper lemmas: the sort -/

instance : IsTotal String sizeLE := ⟨fun a b => le_total (parseSize a) (parseSize b)⟩

instance : IsTrans String sizeLE := ⟨fun _ _ _ hab hbc => le_trans hab hbc⟩

theorem filter_orderedInsert (c : ℚ) (a : String) (L : List String) :
    (List.orderedInsert sizeLE a L).filter (fun t => decide (parseSize t = c)) =
      if parseSize a = c then
        a :: L.filter (fun t => decide (parseSize t = c))
      else L.filter (fun t => decide (parseSize t = c)) := by
  induction L with
  | nil =>
    rw [List.orderedInsert]
    by_cases hc : parseSize a = c
    · rw [if_pos hc]
      simp [hc]
    · rw [if_neg hc]
      simp [hc]
  | cons b L ih =>
    rw [List.orderedInsert]
    by_cases hab : sizeLE a b
    · rw [if_pos hab]
      by_cases hc : parseSize a = c
      · rw [if_pos hc]
        simp [List.filter_cons, hc]
      · rw [if_neg hc]
        simp [List.filter_cons, hc]
    · rw [if_neg hab]
      have hba : parseSize b < parseSize a := lt_of_not_le hab
      by_cases hc : parseSize a = c
      · have hbc : ¬ parseSize b = c := by
          rw [← hc]
          exact ne_of_lt hba
        rw [if_pos hc]
        rw [List.filter_cons, List.filter_cons, ih, if_pos hc]
        simp [hbc]
      · rw [if_neg hc]
        rw [List.filter_cons, List.filter_cons]
        rw [ih, if_neg hc]

theorem filter_insertionSort (c : ℚ) (L : List String) :
    (List.insertionSort sizeLE L).filter (fun t => decide (parseSize t = c)) =
      L.filter (fun t => decide (parseSize t = c)) := by
  induction L with
  | nil => rfl
  | cons a L ih =>
    rw [List.insertionSort, filter_orderedInsert, List.filter_cons]
    by_cases hc : parseSize a = c
    · rw [if_pos hc, ih]
      simp [hc]
    · rw [if_neg hc, ih]
      simp [hc]

/-! ### Helper lemmas: non-negativity and totality -/

theorem unitFactor_pos (u : List Char) (f : ℚ) (h : unitFactor u = some f) : 0 < f := by
  rw [unitFactor] at h
  split_ifs at h <;>
    first
      | (injection h with h'; subst h'; norm_num)
      | exact Option.noConfusion h

theorem numLit_nonneg (cs : List Char) (v : ℚ) (h : numLit? cs = some v) : 0 ≤ v := by
  rw [numLit?] at h
  cases hsd : splitAtDot cs with
  | none =>
    rw [hsd] at h
    by_cases hi : isIntTok cs = true
    · rw [if_pos hi] at h
      injection h with h'
      subst h'
      positivity
    · rw [if_neg hi] at h
      exact Option.noConfusion h
  | some ab =>
    obtain ⟨a, b⟩ := ab
    simp only [hsd] at h
    by_cases hi : (isIntTok a && isIntTok b) = true
    · rw [if_pos hi] at h
      injection h with h'
      subst h'
      positivity
    · rw [if_neg hi] at h
      exact Option.noConfusion h

theorem matchToken_inv (s : String) (v f : ℚ) (h : matchToken? s = some (v, f)) :
    numLit? (s.data.take (s.data.length - 2)) = some v ∧
    unitFactor (s.data.drop (s.data.length - 2)) = some f := by
  rw [matchToken?] at h
  cases hu : unitFactor (s.data.drop (s.data.length - 2)) with
  | none =>
    rw [hu] at h
    simp at h
  | some f' =>
    rw [hu] at h
    cases hn : numLit? (s.data.take (s.data.length - 2)) with
    | none =>
      rw [hn] at h
      simp at h
    | some v' =>
      rw [hn] at h
      simp only [Option.some.injEq, Prod.mk.injEq] at h
      exact ⟨by rw [h.1], by rw [h.2]⟩

theorem parseSize_nonneg (s : String) : 0 ≤ parseSize s := by
  cases hm : matchToken? s with
  | none => simp [parseSize, hm]
  | some vf =>
    obtain ⟨v, f⟩ := vf
    obtain ⟨hn, hu⟩ := matchToken_inv s v f hm
    simp only [parseSize, hm]
    exact mul_nonneg (numLit_nonneg _ v hn) (le_of_lt (unitFactor_pos _ f hu))

theorem formatSize_ne_empty (s : String) : formatSize s ≠ "" := by
  have hsuffix : ∀ a b : String, b.length = 3 → a ++ b ≠ "" := by
    intro a b hb h
    have hl := congrArg String.length h
    rw [String.length_append, hb] at hl
    have h0 : ("" : String).length = 0 := rfl
    rw [h0] at hl
    omega
  simp only [formatSize]
  split_ifs <;> exact hsuffix _ _ rfl

theorem afterMarker_none (ls : List (List Char))
    (h : ∀ l ∈ ls, trimChars l ≠ "files:".data) : afterMarker ls = none := by
  induction ls with
  | nil => rfl
  | cons l ls ih =>
    rw [afterMarker, if_neg (h l (List.mem_cons_self l ls))]
    exact ih (fun x hx => h x (List.mem_cons_of_mem l hx))

/-! ### Helper lemma: `formatSize` agrees with the spec-side formatter -/

theorem formatSpec_eq (s : String) : formatSize s = specFormat s := by
  simp only [formatSize, specFormat, toFixed0, toFixed1]
  by_cases hgb : parseSize s ≥ 1024 ^ 3
  · rw [if_pos hgb, if_pos hgb]
    set n := ratFloorNat (parseSize s / 1024 ^ 3 * 10 + 1 / 2) with hn
    by_cases hz : n % 10 = 0
    · rw [if_pos hz, hz, natRepr_single 0 (by norm_num)]
      have hd0 : Nat.digitChar 0 = '0' := rfl
      rw [hd0]
      rw [dropDot0_dot_zero (natRepr (n / 10)) [] (natRepr_no_dot (n / 10))]
      rw [List.append_nil]
    · rw [if_neg hz]
      have hlt : n % 10 < 10 := Nat.mod_lt n (by norm_num)
      rw [natRepr_single (n % 10) hlt]
      rw [dropDot0_dot_keep (natRepr (n / 10)) (Nat.digitChar (n % 10))
        (natRepr_no_dot (n / 10)) (digitChar_ne_zero (n % 10) (Nat.pos_of_ne_zero hz) hlt)]
      rw [show natRepr (n / 10) ++ '.' :: [Nat.digitChar (n % 10)] =
        (natRepr (n / 10) ++ ['.']) ++ [Nat.digitChar (n % 10)] from by simp]
      rw [strMk_append, strMk_append]
  · rw [if_neg hgb, if_neg hgb]

/-! ## The claims -/

/-- C1: for every token `N<unit>` with `unit ∈ {kb, mb, gb}` directly after the
number and `N` one or more digits optionally followed by a decimal point and
digits, `toBytes` (`parseSize`) returns `N × 1024 ^ k` with `k = 1` for `kb`,
`k = 2` for `mb`, `k = 3` for `gb`. -/
theorem parseSize_valid_token (a b : List Char) (u : String) (k : ℕ)
    (ha : isIntTok a = true) (hb : b.all Char.isDigit = true)
    (hu : (u = "kb" ∧ k = 1) ∨ (u = "mb" ∧ k = 2) ∨ (u = "gb" ∧ k = 3)) :
    parseSize ⟨a ++ (if b.isEmpty then [] else '.' :: b) ++ u.data⟩ =
      ((digitsToNat a : ℚ) + (digitsToNat b : ℚ) / 10 ^ b.length) * 1024 ^ k := by
  rcases hu with ⟨hu, hk⟩ | ⟨hu, hk⟩ | ⟨hu, hk⟩ <;> subst hu <;> subst hk
  · rw [parseSize_token a b "kb".data 1024 ha hb rfl rfl]
    norm_num
  · rw [parseSize_token a b "mb".data (1024 ^ 2) ha hb rfl rfl]
  · rw [parseSize_token a b "gb".data (1024 ^ 3) ha hb rfl rfl]

/-- C1 witness: in particular `toBytes("1.5gb") = 1610612736`. -/
theorem parseSize_valid_token_witness : parseSize "1.5gb" = 1610612736 := by
  have h : parseSize "1.5gb" =
      ((digitsToNat ['1'] : ℚ) + (digitsToNat ['5'] : ℚ) / 10 ^ (['5'] : List Char).length) *
        1024 ^ 3 :=
    parseSize_valid_token ['1'] ['5'] "gb" 3 (by decide) (by decide)
      (Or.inr (Or.inr ⟨rfl, rfl⟩))
  have d1 : digitsToNat ['1'] = 1 := by decide
  have d5 : digitsToNat ['5'] = 5 := by decide
  rw [h, d1, d5]
  norm_num

/-- C2: for every document the parsed list is sorted ascending by byte size,
tokens of equal byte size keep their original relative order, and the raw
entries `["1gb", "100mb", "1kb", "1.5gb"]` yield
`["1kb", "100mb", "1gb", "1.5gb"]`. -/
theorem parseYamlFiles_sorted_stable :
    (∀ doc : String,
        List.Sorted sizeLE (parseYamlFiles doc) ∧
        ∀ c : ℚ,
          (parseYamlFiles doc).filter (fun t => decide (parseSize t = c)) =
            (rawEntries doc).filter (fun t => decide (parseSize t = c))) ∧
    parseYamlFiles "files:\n- 1gb\n- 100mb\n- 1kb\n- 1.5gb" =
      ["1kb", "100mb", "1gb", "1.5gb"] := by
  constructor
  · intro doc
    exact ⟨List.sorted_insertionSort sizeLE (rawEntries doc),
      fun c => filter_insertionSort c (rawEntries doc)⟩
  · have h1 : parseSize "1kb" = 1024 := by
      simp +decide [parseSize, matchToken?, numLit?, splitAtDot, isIntTok, digitsToNat,
        unitFactor] <;> norm_num
    have h2 : parseSize "100mb" = 104857600 := by
      simp +decide [parseSize, matchToken?, numLit?, splitAtDot, isIntTok, digitsToNat,
        unitFactor] <;> norm_num
    have h3 : parseSize "1gb" = 1073741824 := by
      simp +decide [parseSize, matchToken?, numLit?, splitAtDot, isIntTok, digitsToNat,
        unitFactor] <;> norm_num
    have h4 : parseSize "1.5gb" = 1610612736 := by
      simp +decide [parseSize, matchToken?, numLit?, splitAtDot, isIntTok, digitsToNat,
        unitFactor] <;> norm_num
    have hraw : rawEntries "files:\n- 1gb\n- 100mb\n- 1kb\n- 1.5gb" =
        ["1gb", "100mb", "1kb", "1.5gb"] := by decide
    rw [parseYamlFiles, hraw]
    norm_num [List.insertionSort, List.orderedInsert, sizeLE, h1, h2, h3, h4]

/-- C3 counterexample: on `"files:\n-1kb\n- 2kb"` the first subsequent line
whose trimmed content is non-blank and does not start with `"- "` is `-1kb`,
so by the claim the later line `- 2kb` would contribute no entry; the code
still collects `"2kb"`. -/
theorem sectionScan_counterexample :
    parseYamlFiles "files:\n-1kb\n- 2kb" = ["2kb"] ∧
    sectionEntriesClaimed "files:\n-1kb\n- 2kb" = [] := by
  exact ⟨by decide, by decide⟩

/-- C3 amended: `parse` collects entries only between the first line whose
trimmed content equals `files:` and the first subsequent line whose trimmed
content is non-blank, is not `files:`, and does not start with a hyphen at
all; lines before the marker or after the section end contribute no entries,
and a document with no `files:` marker yields an empty catalog. -/
theorem sectionScan_boundaries (doc : String) :
    rawEntries doc = sectionEntries doc ∧
    ((∀ l ∈ splitLines doc.data, trimChars l ≠ "files:".data) →
      parseYamlFiles doc = []) := by
  constructor
  · rw [rawEntries, sectionEntries, collectEntries_false]
    cases ham : afterMarker (splitLines doc.data) with
    | none => rfl
    | some rest =>
      show (collectEntries rest true).map (fun cs => (⟨cs⟩ : String)) =
        ((rest.takeWhile (fun l => !isTermLine l)).filterMap entryOfLine).map
          (fun cs => (⟨cs⟩ : String))
      rw [collectEntries_true]
  · intro h
    rw [parseYamlFiles, rawEntries, collectEntries_false, afterMarker_none _ h]
    rfl

/-- C3 witness: a document with no `files:` marker yields an empty catalog. -/
theorem sectionScan_boundaries_witness :
    rawEntries "name: x\n- 1kb" = sectionEntries "name: x\n- 1kb" ∧
    parseYamlFiles "name: x\n- 1kb" = [] :=
  ⟨(sectionScan_boundaries "name: x\n- 1kb").1,
   (sectionScan_boundaries "name: x\n- 1kb").2 (by decide)⟩

/-- C4: a retrieval failure lands in the `catch` block and shows the error
state, never the empty-catalog state; an empty but successfully fetched
document yields the empty-catalog state, and the two states are distinct. -/
theorem load_states :
    (∀ e : Unit, load (Except.error e) = ViewState.errored) ∧
    (∀ text : String, load (Except.ok text) ≠ ViewState.errored) ∧
    load (Except.ok "") = ViewState.emptyCatalog ∧
    ViewState.errored ≠ ViewState.emptyCatalog := by
  refine ⟨fun e => rfl, fun text => ?_, rfl, by decide⟩
  simp only [load]
  split_ifs <;> intro h <;> exact ViewState.noConfusion h

/-- C5: every string the token regex does not match resolves to byte count 0,
displays as `"0 KB"`, and such tokens are kept in the catalog without
aborting parsing. -/
theorem malformed_fallback :
    (∀ s : String, matchToken? s = none →
        parseSize s = 0 ∧ formatSize s = "0 KB") ∧
    parseYamlFiles "files:\n- banana\n- -1mb\n- 5xb" = ["banana", "-1mb", "5xb"] := by
  constructor
  · intro s h
    have hp : parseSize s = 0 := by simp [parseSize, h]
    refine ⟨hp, ?_⟩
    rw [formatSize_kb s 0 0 hp (by norm_num) (by norm_num) (by norm_num) (by norm_num)]
    rfl
  · decide

/-- C5 witness: `toBytes("banana") = 0` and it renders as `"0 KB"`. -/
theorem malformed_fallback_witness :
    matchToken? "banana" = none ∧ parseSize "banana" = 0 ∧
    formatSize "banana" = "0 KB" :=
  ⟨rfl, (malformed_fallback.1 "banana" rfl).1, (malformed_fallback.1 "banana" rfl).2⟩

/-- C6: `formatSize` renders exactly by the documented thresholds (GiB to one
decimal with trailing `.0` suppressed, else MiB rounded, else KiB rounded),
and in particular `"1024mb" → "1 GB"`, `"512mb" → "512 MB"`,
`"512kb" → "512 KB"`, `"2.5gb" → "2.5 GB"`. -/
theorem formatSize_thresholds :
    (∀ s : String, formatSize s = specFormat s) ∧
    formatSize "1024mb" = "1 GB" ∧ formatSize "512mb" = "512 MB" ∧
    formatSize "512kb" = "512 KB" ∧ formatSize "2.5gb" = "2.5 GB" := by
  refine ⟨fun s => formatSpec_eq s, ?_, ?_, ?_, ?_⟩
  · have hp : parseSize "1024mb" = 1073741824 := by
      simp +decide [parseSize, matchToken?, numLit?, splitAtDot, isIntTok, digitsToNat,
        unitFactor] <;> norm_num
    rw [formatSize_gb "1024mb" 1073741824 10 hp (by norm_num) (by norm_num) (by norm_num)]
    decide
  · have hp : parseSize "512mb" = 536870912 := by
      simp +decide [parseSize, matchToken?, numLit?, splitAtDot, isIntTok, digitsToNat,
        unitFactor] <;> norm_num
    rw [formatSize_mb "512mb" 536870912 512 hp (by norm_num) (by norm_num) (by norm_num)
      (by norm_num)]
    decide
  · have hp : parseSize "512kb" = 524288 := by
      simp +decide [parseSize, matchToken?, numLit?, splitAtDot, isIntTok, digitsToNat,
        unitFactor] <;> norm_num
    rw [formatSize_kb "512kb" 524288 512 hp (by norm_num) (by norm_num) (by norm_num)
      (by norm_num)]
    decide
  · have hp : parseSize "2.5gb" = 2684354560 := by
      simp +decide [parseSize, matchToken?, numLit?, splitAtDot, isIntTok, digitsToNat,
        unitFactor] <;> norm_num
    rw [formatSize_gb "2.5gb" 2684354560 25 hp (by norm_num) (by norm_num) (by norm_num)]
    decide

/-- C7: every in-section line whose trimmed content begins with `"- "` yields
exactly one entry: the marker is stripped, at most one leading and one
trailing quote character is stripped, and the result is lower-cased and
appended, with no token-format validation. -/
theorem listItem_extraction (l : List Char) (rest : List (List Char))
    (he : beginsWith "- ".data (trimChars l) = true) :
    collectEntries (l :: rest) true =
      specEntry (trimChars l) :: collectEntries rest true := by
  have hfiles : beginsWith "- ".data "files:".data = false := by decide
  have hf : trimChars l ≠ "files:".data := by
    intro hh
    rw [hh, hfiles] at he
    simp at he
  rw [collectEntries, if_neg hf, if_pos (by simp [he]), extractEntry_eq_specEntry]

/-- C7 witness: a quoted upper-case entry is unquoted and lower-cased. -/
theorem listItem_extraction_witness :
    collectEntries ["- \"5MB\"".data] true = ["5mb".data] := by
  rw [listItem_extraction "- \"5MB\"".data [] (by decide)]
  decide

/-- C8: `parseSize`, `formatSize` and `parseYamlFiles` are total: every
string yields a non-negative byte count, a non-empty rendered string, and a
catalog that is a permutation of the collected raw entries. -/
theorem operations_total (s doc : String) :
    0 ≤ parseSize s ∧ formatSize s ≠ "" ∧ (parseYamlFiles doc).Perm (rawEntries doc) :=
  ⟨parseSize_nonneg s, formatSize_ne_empty s,
    List.perm_insertionSort sizeLE (rawEntries doc)⟩

/-- C9: an in-section line whose trimmed content starts with `"-"` but not
with `"- "` is silently skipped: it yields no entry and does not end the
section. -/
theorem dashLine_skipped (l : List Char) (rest : List (List Char))
    (hd : beginsWith "-".data (trimChars l) = true)
    (hns : beginsWith "- ".data (trimChars l) = false) :
    collectEntries (l :: rest) true = collectEntries rest true := by
  have hfiles : beginsWith "-".data "files:".data = false := by decide
  have hf : trimChars l ≠ "files:".data := by
    intro hh
    rw [hh, hfiles] at hd
    simp at hd
  rw [collectEntries, if_neg hf, if_neg (by simp [hns]), if_neg (by simp [hd])]

/-- C9 witness: `-1kb` is skipped and the later list item is still
collected. -/
theorem dashLine_skipped_witness :
    collectEntries ["-1kb".data, "- 2kb".data] true =
      collectEntries ["- 2kb".data] true :=
  dashLine_skipped "-1kb".data ["- 2kb".data] (by decide) (by decide)

/-- C10: a well-formed token whose byte count is positive but below 512
bytes also displays as `"0 KB"`, e.g. `"0.4kb"` (409.6 bytes). -/
theorem small_token_zero_display :
    (∀ s : String, (matchToken? s).isSome = true → parseSize s < 512 →
        formatSize s = "0 KB") ∧
    (matchToken? "0.4kb").isSome = true ∧ 0 < parseSize "0.4kb" ∧
    formatSize "0.4kb" = "0 KB" := by
  have hp : parseSize "0.4kb" = 2048 / 5 := by
    simp +decide [parseSize, matchToken?, numLit?, splitAtDot, isIntTok, digitsToNat,
      unitFactor] <;> norm_num
  constructor
  · intro s _ hlt
    have hb0 : (0 : ℚ) ≤ parseSize s := parseSize_nonneg s
    have hd : (0 : ℚ) ≤ parseSize s / 1024 := div_nonneg hb0 (by norm_num)
    have hdlt : parseSize s / 1024 < 1 / 2 := by
      rw [div_lt_iff₀ (by norm_num : (0 : ℚ) < 1024)]
      calc parseSize s < 512 := hlt
        _ = 1 / 2 * 1024 := by norm_num
    rw [formatSize_kb s (parseSize s) 0 rfl
      (by intro hge; norm_num at hge; linarith)
      (by intro hge; norm_num at hge; linarith)
      (by push_cast; linarith) (by push_cast; linarith)]
    rfl
  · refine ⟨rfl, by rw [hp]; norm_num, ?_⟩
    rw [formatSize_kb "0.4kb" (2048 / 5) 0 hp (by norm_num) (by norm_num) (by norm_num)
      (by norm_num)]
    rfl

/-- C10 witness: applied at `"0.4kb"`. -/
theorem small_token_zero_display_witness :
    (matchToken? "0.4kb").isSome = true ∧ parseSize "0.4kb" < 512 ∧
    formatSize "0.4kb" = "0 KB" := by
  have hp : parseSize "0.4kb" = 2048 / 5 := by
    simp +decide [parseSize, matchToken?, numLit?, splitAtDot, isIntTok, digitsToNat,
      unitFactor] <;> norm_num
  exact ⟨rfl, by rw [hp]; norm_num,
    small_token_zero_display.1 "0.4kb" rfl (by rw [hp]; norm_num)⟩

end TurboSpeed
